import Mathlib

/-!
Verification of the tt-burnin TTX loading core against its specification.

This file gives a shallow embedding, in Lean 4, of the parts of the
repository the claims are about:

* `tt_burnin/load_ttx.py` — the binary/hex container codec
  (`check_bin_header`, `ChunkHeader.read`, `read_bin_image_chunks`,
  `read_hex_image_chunks`), the archive classifier and loader
  (`load_ttx_file`, `load_core`, `load_bin`, `load_hex`, `check_bin`,
  `check_hex`) and the completion checker (`TtxCompletionChecks`,
  `_read_block`).
* `tt_burnin/chip.py` — the topology mapper
  (`WhChip.get_tensix_locations`, `GsChip.get_tensix_locations`,
  `TTChip._int_to_bits`).

Python byte strings are modelled as `List Nat`, file names as `List Char`,
Python sets of cores as strictly sorted duplicate-free lists (the canonical
form produced by `ofCores`; Python's `sorted` on tuples is exactly this
order), and the device as a trace of NOC events plus a byte memory per
core.  Iterators (`read_bin_image_chunks` and `read_hex_image_chunks` are
Python generators) are modelled in "generator style": a decode returns the
list of chunks yielded before the generator either finishes cleanly
(`none`) or raises (`some error`), so that a consumer that writes each
yielded chunk to the device is modelled faithfully even when a later chunk
raises.  Loops whose measure is not structural use explicit fuel, always
called with fuel strictly greater than the remaining input length, which
makes them total and keeps them kernel-reducible.
-/

namespace TtBurnin

/-- `CoreId` from `load_ttx.py`: an (x, y) pair of non-negative integers. -/
structure CoreId where
  x : Nat
  y : Nat
deriving DecidableEq

/-- Lexicographic strict order on cores; Python's `sorted` on the
underlying `(x, y)` tuples sorts by exactly this order. -/
def coreLt (a b : CoreId) : Bool :=
  decide (a.x < b.x) || (decide (a.x = b.x) && decide (a.y < b.y))

def sinsert (c : CoreId) : List CoreId → List CoreId
  | [] => [c]
  | d :: ds =>
    if c = d then d :: ds
    else if coreLt c d then c :: d :: ds
    else d :: sinsert c ds

/-- Canonical (sorted, duplicate-free) form of a Python set of cores. -/
def ofCores (l : List CoreId) : List CoreId := l.foldr sinsert []

/-- Python set difference on canonical lists. -/
def coresDiff (l r : List CoreId) : List CoreId :=
  l.filter (fun c => decide (c ∉ r))

/-- Python set union on canonical lists. -/
def coresUnion (l r : List CoreId) : List CoreId := ofCores (l ++ r)

def SortedCores (l : List CoreId) : Prop :=
  l.Pairwise (fun a b => coreLt a b = true)

/-! ## Topology mapper (`tt_burnin/chip.py`) -/

/-- Test of bit `b` of `x` (`x & (1 << b)` being nonzero). -/
def natBit (x b : Nat) : Bool := decide (x / 2 ^ b % 2 = 1)

/-- `TTChip._int_to_bits`: the positions of the set bits of `x`, in
increasing order.  Python filters `range(x.bit_length())`; filtering
`range(x + 1)` accepts exactly the same positions, because every set bit
`b` of `x` satisfies `2 ^ b ≤ x`, hence `b < x + 1`. -/
def int_to_bits (x : Nat) : List Nat :=
  (List.range (x + 1)).filter (fun b => natBit x b)

/-- `WhChip.PHYS_Y_TO_NOC_0_Y` (chip.py line 412). -/
def PHYS_Y_TO_NOC_0_Y_WH : List Nat := [0, 11, 1, 10, 2, 9, 3, 8, 4, 7, 5, 6]

/-- `GsChip.PHYS_Y_TO_NOC_0_Y` (chip.py line 481). -/
def PHYS_Y_TO_NOC_0_Y_GS : List Nat := [0, 11, 1, 10, 2, 9, 3, 8, 4, 7, 5, 6]

/-- `WhChip.get_tensix_locations` (chip.py lines 422-440), as a function of
the raw harvesting bitmask returned by `get_harvest_bits`.  The result set
is returned in canonical (sorted) form; Python returns it as a `set`. -/
def get_tensix_locations_wh (harvestBits : Nat) : List CoreId :=
  let allTensixRows : List Nat := [1, 2, 3, 4, 5, 7, 8, 9, 10, 11]
  let allTensixCols : List Nat := [1, 2, 3, 4, 6, 7, 8, 9]
  let badRowBits := harvestBits <<< 1
  let badPhysicalRows := int_to_bits badRowBits
  let disabledRows := badPhysicalRows.map (fun y => PHYS_Y_TO_NOC_0_Y_WH.getD y 0)
  let goodRows := allTensixRows.filter (fun y => decide (y ∉ disabledRows))
  ofCores (allTensixCols.flatMap (fun c => goodRows.map (fun r => CoreId.mk c r)))

/-- `GsChip.get_tensix_locations` (chip.py lines 491-510): same shape as the
Wormhole variant but the physical-row lookup is reversed through
`GRID_SIZE_Y - y - 1` and the columns are `range(1, 13)`. -/
def get_tensix_locations_gs (harvestBits : Nat) : List CoreId :=
  let gridSizeX : Nat := 13
  let gridSizeY : Nat := 12
  let badRowBits := harvestBits <<< 1
  let badPhysicalRows := int_to_bits badRowBits
  let disabledRows :=
    badPhysicalRows.map (fun y => PHYS_Y_TO_NOC_0_Y_GS.getD (gridSizeY - y - 1) 0)
  let goodRows := ([1, 2, 3, 4, 5, 7, 8, 9, 10, 11] : List Nat).filter
    (fun y => decide (y ∉ disabledRows))
  ofCores (((List.range gridSizeX).drop 1).flatMap
    (fun c => goodRows.map (fun r => CoreId.mk c r)))

/-! ## Container codec (`tt_burnin/load_ttx.py`) -/

/-- Errors raised by the loading pipeline.  The Python code raises
`RuntimeError`, `ValueError`, `OverflowError` or `AssertionError` with a
message; each constructor stands for one such raise site, and the
constructors for mapping errors record the sorted list of cores whose
textual forms are interpolated into the message (the "details"). -/
inductive TtxErr where
  /-- Message: Image file is truncated within binary file header. -/
  | truncatedBinHeader
  /-- Message: Image file does not start with expected magic. -/
  | badMagic
  /-- Message: Image file header contains nonzero in MBZ field. -/
  | headerMbz
  /-- Message: Image file is truncated within chunk header. -/
  | truncatedChunkHeader
  /-- Message: Chunk header contains nonzero in MBZ field. -/
  | chunkMbz
  /-- Message: Image file is truncated within data chunk. -/
  | truncatedChunkData
  /-- Error raised by `int(...)` / `.to_bytes(4, "little")` / `.decode()`
  while parsing a hex image line. -/
  | hexParse
  /-- AssertionError: a hex image block is flushed while no `@` line has
  set an address yet. -/
  | hexNoAddress
  /-- Message: core_mapping targets cores that do not exist. (details) -/
  | targetsDontExist (details : List CoreId)
  /-- Message: TTX is empty. -/
  | emptyTtx
  /-- Message: TTX has cores with ckernels but no image. (details) -/
  | ckernelsNoImage (details : List CoreId)
  /-- Message: TTX has images for cores with no physical mapping. (details) -/
  | imagesNotMapped (details : List CoreId)
  /-- AssertionError raised by `check_bin` / `check_hex` on a read-back
  mismatch. -/
  | checkFailed
deriving DecidableEq

/-- Little-endian value of a byte string, as decoded by
`struct.unpack("<...")` for a field covering exactly these bytes. -/
def leVal : List Nat → Nat
  | [] => 0
  | b :: rest => b + 256 * leVal rest

/-- `BIN_FILE_V1_MAGIC` (load_ttx.py line 65). -/
def BIN_FILE_V1_MAGIC : Nat := 0x9704266B

/-- `check_bin_header` (load_ttx.py lines 99-110): read the fixed 32-byte
header; fail on a short read, a wrong magic, or a nonzero value among the
seven reserved words; return the rest of the stream. -/
def check_bin_header (s : List Nat) : Except TtxErr (List Nat) :=
  if s.length < 32 then .error .truncatedBinHeader
  else
    let hdr := s.take 32
    if leVal (hdr.take 4) ≠ BIN_FILE_V1_MAGIC then .error .badMagic
    else if ((List.range 7).map (fun i => leVal ((hdr.drop (4 * (i + 1))).take 4))).any
        (fun w => decide (w ≠ 0)) then .error .headerMbz
    else .ok (s.drop 32)

/-- The chunk loop of `read_bin_image_chunks` (load_ttx.py lines 116-125)
together with `ChunkHeader.read` (lines 84-96), in generator style: the
returned list holds the `(address, data)` chunks yielded before the
generator either finished cleanly (`none`) or raised (`some error`).
`f.read(n)` on a stream returns `min n remaining` bytes, so a zero-byte
read at the chunk-header position (clean stop) is `s.length = 0` and a
short read is `s.length < 16`.  The `fuel` argument only serves
termination: every iteration consumes at least the 16 header bytes, so any
call with `s.length < fuel` never reaches the fuel-exhausted branch. -/
def read_chunks_gen : Nat → List Nat → List (Nat × List Nat) × Option TtxErr
  | 0, _ => ([], some .truncatedChunkHeader)
  | fuel + 1, s =>
    if s.length = 0 then ([], none)
    else if s.length < 16 then ([], some .truncatedChunkHeader)
    else
      let address := leVal (s.take 8)
      let length := leVal ((s.drop 8).take 4)
      let reserved := leVal ((s.drop 12).take 4)
      if reserved ≠ 0 then ([], some .chunkMbz)
      else
        let rest := s.drop 16
        let chunkData := rest.take length
        if chunkData.length ≠ length then ([], some .truncatedChunkData)
        else
          let next := read_chunks_gen fuel (rest.drop length)
          ((address, chunkData) :: next.1, next.2)

/-- `read_bin_image_chunks` (load_ttx.py lines 113-125) in generator
style. -/
def read_bin_image_chunks_gen (s : List Nat) : List (Nat × List Nat) × Option TtxErr :=
  match check_bin_header s with
  | .error e => ([], some e)
  | .ok rest => read_chunks_gen (rest.length + 1) rest

/-- `read_bin_image_chunks` consumed to the end, as by `list(...)`:
either every yielded chunk, or the error the generator raised. -/
def read_bin_image_chunks (s : List Nat) : Except TtxErr (List (Nat × List Nat)) :=
  match read_bin_image_chunks_gen s with
  | (cs, none) => .ok cs
  | (_, some e) => .error e

/-- Whitespace bytes stripped by Python's `bytes.strip()`. -/
def wsByte (b : Nat) : Bool :=
  decide (b = 32) || decide (b = 9) || decide (b = 10) ||
  decide (b = 13) || decide (b = 11) || decide (b = 12)

/-- Python `bytes.strip()`. -/
def bstrip (l : List Nat) : List Nat :=
  ((l.dropWhile wsByte).reverse.dropWhile wsByte).reverse

/-- Split a byte string into lines at LF bytes.  Python's `readlines`
keeps each terminator inside its line and does not append a final empty
line; since the decoder strips every line and never looks past a line's
content, the two conventions decode identically. -/
def splitLines : List Nat → List (List Nat)
  | [] => [[]]
  | b :: rest =>
    let r := splitLines rest
    if b = 10 then [] :: r
    else
      match r with
      | [] => [[b]]
      | h :: t => (b :: h) :: t

/-- Value of one hexadecimal digit byte, if it is one. -/
def hexDigitVal (b : Nat) : Option Nat :=
  if 48 ≤ b ∧ b ≤ 57 then some (b - 48)
  else if 97 ≤ b ∧ b ≤ 102 then some (b - 87)
  else if 65 ≤ b ∧ b ≤ 70 then some (b - 55)
  else none

/-- Helper for `hexValBytes`. -/
def hexValGo : List Nat → Nat → Option Nat
  | [], acc => some acc
  | b :: rest, acc =>
    match hexDigitVal b with
    | none => none
    | some d => hexValGo rest (acc * 16 + d)

/-- Python `int("0x" + s, 0)` on a stripped byte string: the hex value,
or `none` for the `ValueError` raised on an empty or non-hex string.
(Python additionally tolerates `_` digit separators, which no TTX image
uses; the model treats them as parse errors.) -/
def hexValBytes (l : List Nat) : Option Nat :=
  match l with
  | [] => none
  | _ => hexValGo l 0

/-- Python `n.to_bytes(4, "little")`: four little-endian bytes, or `none`
for the `OverflowError` when the value needs more than 32 bits. -/
def toBytesLE4 (n : Nat) : Option (List Nat) :=
  if n < 4294967296 then
    some [n % 256, n / 256 % 256, n / 65536 % 256, n / 16777216 % 256]
  else none

/-- The line loop of `read_hex_image_chunks` (load_ttx.py lines 128-147)
in generator style, carrying the current block address (`none` until the
first `@` line) and the accumulated buffer.  Order of operations per the
source: skip lines that are blank after stripping; on a line whose first
byte is `@` (checked on the unstripped line), first flush a non-empty
buffer (asserting an address is set), then parse the new word address and
multiply by 4; on any other line, parse a hex word and append its four
little-endian bytes; finally flush a non-empty buffer at end of input. -/
def read_hex_lines_gen :
    List (List Nat) → Option Nat → List Nat → List (Nat × List Nat) × Option TtxErr
  | [], addrOpt, buffer =>
    if buffer.length > 0 then
      match addrOpt with
      | none => ([], some .hexNoAddress)
      | some a => ([(a, buffer)], none)
    else ([], none)
  | line :: rest, addrOpt, buffer =>
    if (bstrip line).length > 0 then
      if line.head? = some 64 then
        if buffer.length > 0 then
          match addrOpt with
          | none => ([], some .hexNoAddress)
          | some a =>
            match hexValBytes (bstrip (line.drop 1)) with
            | none => ([(a, buffer)], some .hexParse)
            | some v =>
              let next := read_hex_lines_gen rest (some (v * 4)) []
              ((a, buffer) :: next.1, next.2)
        else
          match hexValBytes (bstrip (line.drop 1)) with
          | none => ([], some .hexParse)
          | some v => read_hex_lines_gen rest (some (v * 4)) []
      else
        match hexValBytes (bstrip line) with
        | none => ([], some .hexParse)
        | some v =>
          match toBytesLE4 v with
          | none => ([], some .hexParse)
          | some bs => read_hex_lines_gen rest addrOpt (buffer ++ bs)
    else read_hex_lines_gen rest addrOpt buffer

/-- `read_hex_image_chunks` (load_ttx.py lines 128-147) in generator
style. -/
def read_hex_image_chunks_gen (bs : List Nat) : List (Nat × List Nat) × Option TtxErr :=
  read_hex_lines_gen (splitLines bs) none []

/-- `read_hex_image_chunks` consumed to the end, as by `list(...)`. -/
def read_hex_image_chunks (bs : List Nat) : Except TtxErr (List (Nat × List Nat)) :=
  match read_hex_image_chunks_gen bs with
  | (cs, none) => .ok cs
  | (_, some e) => .error e

/-! ## Archive inspection and loading (`load_ttx_file`) -/

/-- Split a character list at every occurrence of `sep`, like Python's
`str.split(sep)` for a single-character separator. -/
def splitOnChar (sep : Char) : List Char → List (List Char)
  | [] => [[]]
  | a :: rest =>
    let r := splitOnChar sep rest
    if a = sep then [] :: r
    else
      match r with
      | [] => [[a]]
      | h :: t => (a :: h) :: t

/-- Helper for `parseDec`. -/
def parseDecGo : List Char → Nat → Option Nat
  | [], acc => some acc
  | c :: rest, acc =>
    if 48 ≤ c.toNat ∧ c.toNat ≤ 57 then parseDecGo rest (acc * 10 + (c.toNat - 48))
    else none

/-- Parse a non-empty all-digit character list as a decimal number
(the `(\d+)` groups of the entry-name pattern). -/
def parseDec (cs : List Char) : Option Nat :=
  match cs with
  | [] => none
  | _ => parseDecGo cs 0

/-- Match an archive entry name against the pattern
`(\d+)-(\d+)/((image|ckernels)\.(bin|hex))` of load_ttx.py line 233.
Returns the core and two flags: is the role `image` (vs `ckernels`),
and is the extension `bin` (vs `hex`). -/
def parseEntryName (name : List Char) : Option (CoreId × Bool × Bool) :=
  match splitOnChar '/' name with
  | [xy, rolePart] =>
    (match splitOnChar '-' xy with
     | [xs, ys] =>
       (match parseDec xs, parseDec ys with
        | some x, some y =>
          if rolePart = "image.bin".data then some (⟨x, y⟩, true, true)
          else if rolePart = "image.hex".data then some (⟨x, y⟩, true, false)
          else if rolePart = "ckernels.bin".data then some (⟨x, y⟩, false, true)
          else if rolePart = "ckernels.hex".data then some (⟨x, y⟩, false, false)
          else none
        | _, _ => none)
     | _ => none)
  | _ => none

/-- Textual form of a core, `f"{x}-{y}"`, followed by `/` and a base
file name: the strings `load_core` looks up in the archive. -/
def entryName (c : CoreId) (base : String) : List Char :=
  Nat.toDigits 10 c.x ++ ['-'] ++ Nat.toDigits 10 c.y ++ ['/'] ++ base.data

/-- Model of the Python dict comprehension
`{info.filename: info for info in ttx.infolist()}`: for a duplicated key
the last value wins.  (The resulting association order differs from
Python's insertion order, which no modelled behaviour observes.) -/
def dedupKeepLast {α β : Type} [DecidableEq α] : List (α × β) → List (α × β)
  | [] => []
  | (k, v) :: rest =>
    if rest.any (fun p => decide (p.1 = k)) then dedupKeepLast rest
    else (k, v) :: dedupKeepLast rest

/-- Association-list lookup, modelling Python dict lookup on a
duplicate-free association list. -/
def alookup {α β : Type} [DecidableEq α] (l : List (α × β)) (k : α) : Option β :=
  (l.find? (fun p => decide (p.1 = k))).map Prod.snd

/-- The four per-role core sets built by `load_ttx_file`
(load_ttx.py lines 225-253), after hex shadowing. -/
structure TtxClassification where
  image_bins : List CoreId
  image_hex : List CoreId
  ckernels_bins : List CoreId
  ckernels_hex : List CoreId
deriving DecidableEq

/-- Classification loop of `load_ttx_file` (lines 232-248): parse each
entry name, ignore empty payloads (`bin` entries of size at most the
32-byte header, `hex` entries of size 0), collect the cores per role, then
discard hex cores shadowed by a bin entry of the same role. -/
def classify_ttx (infolist : List (List Char × List Nat)) : TtxClassification :=
  let step := fun (cl : TtxClassification) (entry : List Char × List Nat) =>
    match parseEntryName entry.1 with
    | none => cl
    | some (c, isImage, isBin) =>
      if (isBin && decide (entry.2.length > 32)) || (!isBin && decide (entry.2.length > 0)) then
        match isImage, isBin with
        | true, true => { cl with image_bins := sinsert c cl.image_bins }
        | true, false => { cl with image_hex := sinsert c cl.image_hex }
        | false, true => { cl with ckernels_bins := sinsert c cl.ckernels_bins }
        | false, false => { cl with ckernels_hex := sinsert c cl.ckernels_hex }
      else cl
  let raw := infolist.foldl step ⟨[], [], [], []⟩
  { raw with
    image_hex := coresDiff raw.image_hex raw.image_bins,
    ckernels_hex := coresDiff raw.ckernels_hex raw.ckernels_bins }

/-- One NOC operation issued against the device.  `write` is
`chip.noc_write(0, x, y, addr, data)`, `broadcastWrite` is
`chip.noc_broadcast(0, addr, data)`, `read` is
`chip.noc_read(0, x, y, addr, buffer)` with `len` the buffer size. -/
inductive Event where
  | write (core : CoreId) (addr : Nat) (data : List Nat)
  | broadcastWrite (addr : Nat) (data : List Nat)
  | read (core : CoreId) (addr : Nat) (len : Nat)
deriving DecidableEq

/-- Device memory semantics of one event: a `write` updates the bytes of
one core, a `broadcastWrite` updates them on every core, a `read` changes
nothing. -/
def applyEvent (m : CoreId → Nat → Nat) : Event → CoreId → Nat → Nat
  | .write c a d => fun c' a' =>
      if c' = c ∧ a ≤ a' ∧ a' < a + d.length then d.getD (a' - a) 0 else m c' a'
  | .broadcastWrite a d => fun c' a' =>
      if a ≤ a' ∧ a' < a + d.length then d.getD (a' - a) 0 else m c' a'
  | .read _ _ _ => m

/-- Device memory after an initial memory and a trace of events. -/
def memAt (m0 : CoreId → Nat → Nat) (trace : List Event) : CoreId → Nat → Nat :=
  trace.foldl applyEvent m0

/-- The `len` bytes a `noc_read` returns from memory `m`. -/
def readBytesMem (m : CoreId → Nat → Nat) (c : CoreId) (addr len : Nat) : List Nat :=
  (List.range len).map (fun i => m c (addr + i))

/-- Events issued for one decoded chunk by `load_bin` / `load_hex`
(lines 150-157 and 173-179): a single broadcast when `cores is None`,
otherwise one write per target core. -/
def writeChunkEvents (targets : Option (List CoreId)) (chunk : Nat × List Nat) : List Event :=
  match targets with
  | none => [.broadcastWrite chunk.1 chunk.2]
  | some cores => cores.map (fun c => .write c chunk.1 chunk.2)

/-- Common body of `load_bin` and `load_hex` over a generator result:
every yielded chunk is written before the generator's terminal error (if
any) propagates. -/
def load_gen (targets : Option (List CoreId)) (g : List (Nat × List Nat) × Option TtxErr) :
    List Event × Except TtxErr Unit :=
  (g.1.flatMap (writeChunkEvents targets),
   match g.2 with
   | none => .ok ()
   | some e => .error e)

/-- `load_bin` (load_ttx.py lines 173-179), as the event trace it issues
and its outcome. -/
def load_bin (targets : Option (List CoreId)) (content : List Nat) :
    List Event × Except TtxErr Unit :=
  load_gen targets (read_bin_image_chunks_gen content)

/-- `load_hex` (load_ttx.py lines 150-157). -/
def load_hex (targets : Option (List CoreId)) (content : List Nat) :
    List Event × Except TtxErr Unit :=
  load_gen targets (read_hex_image_chunks_gen content)

/-- Inner core loop of `check_bin` / `check_hex` for one chunk: read the
chunk's range back from every core in order, stopping at the first
mismatching core (the `assert`). -/
def checkCoresChunk (m : CoreId → Nat → Nat) (addr : Nat) (data : List Nat) :
    List CoreId → List Event × Bool
  | [] => ([], true)
  | c :: rest =>
    let ev := Event.read c addr data.length
    if readBytesMem m c addr data.length = data then
      let next := checkCoresChunk m addr data rest
      (ev :: next.1, next.2)
    else ([ev], false)

/-- Chunk loop of `check_bin` / `check_hex` (lines 159-171 and 181-192):
for each decoded chunk, resolve `cores is None` to the chip's tensix
locations and compare the chunk against each core's memory. -/
def checkChunksList (m : CoreId → Nat → Nat) (tensix : List CoreId)
    (targets : Option (List CoreId)) :
    List (Nat × List Nat) → List Event × Except TtxErr Unit
  | [] => ([], .ok ())
  | chunk :: rest =>
    let cores := match targets with
      | none => tensix
      | some cs => cs
    let this := checkCoresChunk m chunk.1 chunk.2 cores
    if this.2 then
      let next := checkChunksList m tensix targets rest
      (this.1 ++ next.1, next.2)
    else (this.1, .error .checkFailed)

/-- Common body of `check_bin` and `check_hex` over a generator result: a
decode error surfaces only after the chunks yielded before it compared
equal. -/
def check_gen (m : CoreId → Nat → Nat) (tensix : List CoreId)
    (targets : Option (List CoreId)) (g : List (Nat × List Nat) × Option TtxErr) :
    List Event × Except TtxErr Unit :=
  let walked := checkChunksList m tensix targets g.1
  match walked.2 with
  | .error e => (walked.1, .error e)
  | .ok _ =>
    (walked.1,
     match g.2 with
     | none => .ok ()
     | some e => .error e)

/-- `check_bin` (load_ttx.py lines 181-192). -/
def check_bin (m : CoreId → Nat → Nat) (tensix : List CoreId)
    (targets : Option (List CoreId)) (content : List Nat) :
    List Event × Except TtxErr Unit :=
  check_gen m tensix targets (read_bin_image_chunks_gen content)

/-- `check_hex` (load_ttx.py lines 159-171). -/
def check_hex (m : CoreId → Nat → Nat) (tensix : List CoreId)
    (targets : Option (List CoreId)) (content : List Nat) :
    List Event × Except TtxErr Unit :=
  check_gen m tensix targets (read_hex_image_chunks_gen content)

/-- Load (and unless `no_check`, verify) one archive entry if present:
one `if name in infolist` block of `load_core` (lines 281-303).  `tr` is
the global event trace so far; the result extends it. -/
def loadOneEntry (tensix : List CoreId) (mem0 : CoreId → Nat → Nat)
    (infolist : List (List Char × List Nat)) (noCheck : Bool) (isBin : Bool)
    (name : List Char) (targets : Option (List CoreId)) (tr : List Event) :
    List Event × Except TtxErr Unit :=
  match alookup infolist name with
  | none => (tr, .ok ())
  | some content =>
    let g := if isBin then read_bin_image_chunks_gen content
             else read_hex_image_chunks_gen content
    let loaded := load_gen targets g
    let tr1 := tr ++ loaded.1
    match loaded.2 with
    | .error e => (tr1, .error e)
    | .ok _ =>
      if noCheck then (tr1, .ok ())
      else
        let checked := check_gen (memAt mem0 tr1) tensix targets g
        (tr1 ++ checked.1, checked.2)

/-- `load_core` (load_ttx.py lines 272-303): process, in source order,
`image.hex`, `ckernels.hex`, `image.bin`, `ckernels.bin` for one logical
source core, stopping at the first error. -/
def load_core (tensix : List CoreId) (mem0 : CoreId → Nat → Nat)
    (infolist : List (List Char × List Nat)) (noCheck : Bool) (source : CoreId)
    (targets : Option (List CoreId)) (tr : List Event) :
    List Event × Except TtxErr Unit :=
  match loadOneEntry tensix mem0 infolist noCheck false (entryName source "image.hex") targets tr with
  | (tr1, .error e) => (tr1, .error e)
  | (tr1, .ok _) =>
    match loadOneEntry tensix mem0 infolist noCheck false (entryName source "ckernels.hex") targets tr1 with
    | (tr2, .error e) => (tr2, .error e)
    | (tr2, .ok _) =>
      match loadOneEntry tensix mem0 infolist noCheck true (entryName source "image.bin") targets tr2 with
      | (tr3, .error e) => (tr3, .error e)
      | (tr3, .ok _) =>
        loadOneEntry tensix mem0 infolist noCheck true (entryName source "ckernels.bin") targets tr3

/-- The non-broadcast loop of `load_ttx_file` (lines 310-311): run
`load_core` for each listed source core with its mapped physical targets,
stopping at the first error. -/
def load_cores_loop (tensix : List CoreId) (mem0 : CoreId → Nat → Nat)
    (infolist : List (List Char × List Nat)) (noCheck : Bool)
    (coreMapping : List (CoreId × List CoreId)) :
    List CoreId → List Event → List Event × Except TtxErr Unit
  | [], tr => (tr, .ok ())
  | c :: rest, tr =>
    match load_core tensix mem0 infolist noCheck c (some ((alookup coreMapping c).getD [])) tr with
    | (tr1, .ok _) => load_cores_loop tensix mem0 infolist noCheck coreMapping rest tr1
    | (tr1, .error e) => (tr1, .error e)

/-- Broadcast detection of `load_ttx_file` (lines 211-214): the mapping's
key set is exactly `{CoreId(0, 0)}` and that key's target set equals the
chip's full tensix-location set (`allTensix` is already canonical). -/
def computeBroadcast (coreMapping : List (CoreId × List CoreId))
    (allTensix : List CoreId) : Bool :=
  decide (ofCores (coreMapping.map Prod.fst) = [CoreId.mk 0 0])
  && decide (ofCores ((alookup coreMapping (CoreId.mk 0 0)).getD []) = allTensix)

/-- `load_ttx_file` (load_ttx.py lines 196-312).  `tensix` is what
`chip.get_tensix_locations()` returns, `mem0` the device memory the chip
starts in, `archive` the zip entries as `(name, content)` pairs.  The
result is the full trace of NOC operations issued, with either the set of
loaded source cores (canonical form, as the Python `AbstractSet`) or the
error raised.  Python iterates the `image_bins` set in unspecified order;
the model fixes the canonical sorted order as one deterministic
instance. -/
def load_ttx_file (tensix : List CoreId) (mem0 : CoreId → Nat → Nat)
    (archive : List (List Char × List Nat))
    (coreMapping : List (CoreId × List CoreId)) (noCheck : Bool) :
    List Event × Except TtxErr (List CoreId) :=
  let allTensixCores := ofCores tensix
  let allSourceCores := ofCores (coreMapping.map Prod.fst)
  let allTargetCores := ofCores (coreMapping.flatMap Prod.snd)
  let badTargets := coresDiff allTargetCores allTensixCores
  if badTargets.length > 0 then ([], .error (.targetsDontExist badTargets))
  else
    let broadcast := computeBroadcast coreMapping allTensixCores
    let infolist := dedupKeepLast archive
    let cl := classify_ttx infolist
    if cl.image_bins = [] ∧ cl.image_hex = [] then ([], .error .emptyTtx)
    else
      let ckOrphans := coresDiff (coresUnion cl.ckernels_bins cl.ckernels_hex)
        (coresUnion cl.image_bins cl.image_hex)
      if ckOrphans.length > 0 then
        ([], .error (.ckernelsNoImage (coresDiff cl.ckernels_bins cl.image_bins)))
      else
        let unmapped := coresDiff (coresUnion cl.image_bins cl.image_hex) allSourceCores
        if unmapped.length > 0 then ([], .error (.imagesNotMapped unmapped))
        else
          if broadcast then
            match load_core tensix mem0 infolist noCheck (CoreId.mk 0 0) none [] with
            | (tr, .ok _) => (tr, .ok allTensixCores)
            | (tr, .error e) => (tr, .error e)
          else
            match load_cores_loop tensix mem0 infolist noCheck coreMapping cl.image_bins [] with
            | (tr, .ok _) => (tr, .ok cl.image_bins)
            | (tr, .error e) => (tr, .error e)

/-- Device memory in which every byte of every core is zero. -/
def zeroMem : CoreId → Nat → Nat := fun _ _ => 0

/-! ## Completion checker (`TtxCompletionChecks`) -/

/-- `TtxCompletionChecks._read_block` (load_ttx.py lines 401-412): the
single `noc_read` it issues (start address and byte count) and the slice
of the read buffer it returns for comparison. -/
def read_block (m : CoreId → Nat → Nat) (core : CoreId) (address length : Nat) :
    Event × List Nat :=
  let alignmentOffset := address % 16
  let readAddress := address - alignmentOffset
  let readLength0 := length + alignmentOffset
  let readRounding := 16 - readLength0 % 16
  let readLength := if readRounding < 16 then readLength0 + readRounding else readLength0
  let buffer := readBytesMem m core readAddress readLength
  (.read core readAddress readLength, (buffer.drop alignmentOffset).take length)

/-- One `(address, expected bytes)` completion assertion
(`AddressData`, load_ttx.py lines 315-318). -/
structure AddressData where
  address : Nat
  data : List Nat
deriving DecidableEq

/-- The mutable heap holding Python list objects: `TtxCompletionChecks`
stores, per core, a reference to a list of `AddressData`.  Modelling the
lists by reference keeps Python's aliasing semantics observable, so that
`list.copy()` (fresh cell) and in-place mutation are distinguishable. -/
structure CheckStore where
  cells : List (List AddressData)
deriving DecidableEq

/-- Dereference a list reference (out-of-range references read `[]`). -/
def CheckStore.readRef (s : CheckStore) (r : Nat) : List AddressData :=
  s.cells.getD r []

/-- Allocate a fresh list object holding `v`; returns the grown store and
the new reference. -/
def CheckStore.alloc (s : CheckStore) (v : List AddressData) : CheckStore × Nat :=
  (⟨s.cells ++ [v]⟩, s.cells.length)

/-- A `TtxCompletionChecks` instance: its `_checks` dict, with each value
a reference into the `CheckStore`. -/
structure CompletionChecksObj where
  checks : List (CoreId × Nat)
deriving DecidableEq

/-- The value of an instance's `_checks` mapping: each core with the
actual list its reference holds. -/
def ccView (s : CheckStore) (o : CompletionChecksObj) : List (CoreId × List AddressData) :=
  o.checks.map (fun p => (p.1, s.readRef p.2))

/-- Allocate one fresh copy of `v` per core (`all_checks.copy()` inside
the `remap_for_broadcast` comprehension). -/
def allocEach (s : CheckStore) (v : List AddressData) :
    List CoreId → CheckStore × List (CoreId × Nat)
  | [] => (s, [])
  | c :: cs =>
    let first := s.alloc v
    let rest := allocEach first.1 v cs
    (rest.1, (c, first.2) :: rest.2)

/-- For each `(core, ref)` pair allocate a fresh copy of the list `ref`
holds in the receiver's store `s0` (`self._checks[...].copy()`). -/
def allocCopies (s0 : CheckStore) (s : CheckStore) :
    List (CoreId × Nat) → CheckStore × List (CoreId × Nat)
  | [] => (s, [])
  | (c, r) :: rest =>
    let first := s.alloc (s0.readRef r)
    let next := allocCopies s0 first.1 rest
    (next.1, (c, first.2) :: next.2)

/-- `TtxCompletionChecks.remap_for_broadcast` (load_ttx.py lines 368-373):
flatten all checks of the receiver into one list and give every core of
`cores` its own copy, in a brand-new instance. -/
def remap_for_broadcast (s : CheckStore) (o : CompletionChecksObj)
    (cores : List CoreId) : CheckStore × CompletionChecksObj :=
  let allChecks := o.checks.flatMap (fun p => s.readRef p.2)
  let built := allocEach s allChecks cores
  (built.1, ⟨built.2⟩)

/-- `TtxCompletionChecks.remap_to_physical` (load_ttx.py lines 375-385):
fan each logical core's checks out to its mapped physical cores, copying
the list once per physical core; a physical core reached from several
logicals keeps the last comprehension entry, as a Python dict does. -/
def remap_to_physical (s : CheckStore) (o : CompletionChecksObj)
    (coreMapping : List (CoreId × List CoreId)) : CheckStore × CompletionChecksObj :=
  let pairs : List (CoreId × Nat) := coreMapping.flatMap (fun lp =>
    match alookup o.checks lp.1 with
    | none => []
    | some r => lp.2.map (fun phys => (phys, r)))
  let built := allocCopies s s pairs
  (built.1, ⟨dedupKeepLast built.2⟩)

/-- `TtxCompletionChecks.filter_physical` (load_ttx.py lines 387-396):
keep only cores in `loadedCores`, copying each kept list into a new
instance. -/
def filter_physical (s : CheckStore) (o : CompletionChecksObj)
    (loadedCores : List CoreId) : CheckStore × CompletionChecksObj :=
  let kept := o.checks.filter (fun p => decide (p.1 ∈ loadedCores))
  let built := allocCopies s s kept
  (built.1, ⟨built.2⟩)

/-! ## Claim-side specifications

These definitions follow the wording of the spec rather than the source;
the theorems below compare them with the source-derived definitions. -/

/-- Claim-worded well-formedness of the chunk region of a binary image:
either the region is empty (the clean stop, zero bytes where a chunk
header was expected), or it starts with a complete 16-byte chunk header
whose reserved field is zero, its payload is fully present, and the
remainder is again well formed.  Fuel as in `read_chunks_gen`, supplied
with more fuel than the region's length. -/
def chunksWellFormed : Nat → List Nat → Bool
  | 0, _ => false
  | fuel + 1, s =>
    if s.length = 0 then true
    else
      decide (16 ≤ s.length)
      && decide (leVal ((s.drop 12).take 4) = 0)
      && (let len := leVal ((s.drop 8).take 4)
          decide (16 + len ≤ s.length) && chunksWellFormed fuel ((s.drop 16).drop len))

/-- Claim-worded well-formedness of a whole binary image: the 32-byte
header is fully present, the magic matches `0x9704266B`, the seven
reserved header words are zero, and the chunk region after the header is
well formed. -/
def binWellFormed (s : List Nat) : Bool :=
  decide (32 ≤ s.length)
  && decide (leVal (s.take 4) = BIN_FILE_V1_MAGIC)
  && (List.range 7).all (fun i => decide (leVal (((s.take 32).drop (4 * (i + 1))).take 4) = 0))
  && chunksWellFormed ((s.drop 32).length + 1) (s.drop 32)

/-- Claim-worded hex decoding loop: a line starting with `@` begins a new
block at byte address (hex value after `@`) times 4, flushing any
previously accumulated non-empty block; every other non-blank line is one
hex 32-bit word appended little-endian to the current block; the final
block is flushed at end of stream if non-empty.  The claim is silent on
malformed lines, so the error outcomes are carried over unchanged from the
source model. -/
def hexDecodeClaimGo :
    List (List Nat) → Option Nat → List Nat → List (Nat × List Nat) × Option TtxErr
  | [], addrOpt, buffer =>
    if buffer.length > 0 then
      match addrOpt with
      | none => ([], some .hexNoAddress)
      | some a => ([(a, buffer)], none)
    else ([], none)
  | line :: rest, addrOpt, buffer =>
    if line.head? = some 64 then
      if buffer.length > 0 then
        match addrOpt with
        | none => ([], some .hexNoAddress)
        | some a =>
          match hexValBytes (bstrip (line.drop 1)) with
          | none => ([(a, buffer)], some .hexParse)
          | some v =>
            let next := hexDecodeClaimGo rest (some (v * 4)) []
            ((a, buffer) :: next.1, next.2)
      else
        match hexValBytes (bstrip (line.drop 1)) with
        | none => ([], some .hexParse)
        | some v => hexDecodeClaimGo rest (some (v * 4)) []
    else if (bstrip line).length = 0 then hexDecodeClaimGo rest addrOpt buffer
    else
      match hexValBytes (bstrip line) with
      | none => ([], some .hexParse)
      | some v =>
        match toBytesLE4 v with
        | none => ([], some .hexParse)
        | some bs => hexDecodeClaimGo rest addrOpt (buffer ++ bs)

/-- Claim-worded hex decoding of a byte stream. -/
def hexDecodeClaim (bs : List Nat) : List (Nat × List Nat) × Option TtxErr :=
  hexDecodeClaimGo (splitLines bs) none []

/-- Whether an error is one of the mapping errors listed by claim C2:
mapping target outside the topology, empty archive, ckernels without
image, or image core missing from the mapping. -/
def isMappingErr : TtxErr → Bool
  | .targetsDontExist _ => true
  | .emptyTtx => true
  | .ckernelsNoImage _ => true
  | .imagesNotMapped _ => true
  | _ => false

/-! ## Concrete fixtures used by the closed theorems -/

/-- Bytes of an ASCII string. -/
def strBytes (s : String) : List Nat := s.data.map Char.toNat

/-- A valid 32-byte binary image header (magic followed by zeros), the
input of spec test 2. -/
def exBinHeader : List Nat := [0x6B, 0x26, 0x04, 0x97] ++ List.replicate 28 0

/-- One binary chunk record: address 0, length 2, reserved 0, payload
`AA BB`. -/
def exChunk : List Nat :=
  List.replicate 8 0 ++ [2, 0, 0, 0] ++ [0, 0, 0, 0] ++ [0xAA, 0xBB]

/-- A valid one-chunk binary image. -/
def exBin : List Nat := exBinHeader ++ exChunk

/-- A binary image whose second chunk header is truncated after 3 bytes. -/
def exTruncBin : List Nat := exBinHeader ++ exChunk ++ [0, 0, 0]

/-- A one-block hex image: address 0, one word `0x000000AA`. -/
def exHex : List Nat := strBytes "@0\n000000AA\n"

/-- A single-cell store for the completion-check witness. -/
def exStore : CheckStore := ⟨[[⟨0, [1, 2]⟩]]⟩

/-- A one-core completion-check instance referencing `exStore`'s cell. -/
def exObj : CompletionChecksObj := ⟨[(⟨0, 0⟩, 0)]⟩

/-! ## Canonical core-set lemmas -/

theorem coreLt_irrefl (a : CoreId) : coreLt a a = false := by
  simp [coreLt]

theorem coreLt_asymm {a b : CoreId} (h : coreLt a b = true) : coreLt b a = false := by
  simp only [coreLt, Bool.or_eq_true, Bool.and_eq_true, decide_eq_true_eq,
    Bool.or_eq_false_iff, Bool.and_eq_false_iff, decide_eq_false_iff_not] at h ⊢
  omega

theorem coreLt_trans {a b c : CoreId} (h1 : coreLt a b = true) (h2 : coreLt b c = true) :
    coreLt a c = true := by
  simp only [coreLt, Bool.or_eq_true, Bool.and_eq_true, decide_eq_true_eq] at h1 h2 ⊢
  omega

theorem coreLt_total {a b : CoreId} (h : a ≠ b) :
    coreLt a b = true ∨ coreLt b a = true := by
  rcases a with ⟨ax, ay⟩
  rcases b with ⟨bx, by'⟩
  simp only [coreLt, Bool.or_eq_true, Bool.and_eq_true, decide_eq_true_eq]
  have h' : ax ≠ bx ∨ ay ≠ by' := by
    by_contra hc
    push_neg at hc
    exact h (by rw [hc.1, hc.2])
  omega

/-- Insert a core into a strictly sorted list, keeping it sorted and
duplicate-free.  Building Python sets of cores in this canonical form makes
Python set equality plain list equality. -/

theorem mem_sinsert {a c : CoreId} {l : List CoreId} :
    a ∈ sinsert c l ↔ a = c ∨ a ∈ l := by
  induction l with
  | nil => simp [sinsert]
  | cons d ds ih =>
    simp only [sinsert]
    split
    · next h1 => subst h1; simp only [List.mem_cons]; try tauto
    · split
      · simp only [List.mem_cons]; try tauto
      · simp only [List.mem_cons, ih]; try tauto

theorem mem_ofCores {a : CoreId} {l : List CoreId} :
    a ∈ ofCores l ↔ a ∈ l := by
  induction l with
  | nil => simp [ofCores]
  | cons c cs ih =>
    simp only [ofCores, List.foldr_cons] at *
    rw [mem_sinsert, ih, List.mem_cons]

/-- Strict sortedness of a canonical core list. -/

theorem sortedCores_sinsert {c : CoreId} {l : List CoreId}
    (h : SortedCores l) : SortedCores (sinsert c l) := by
  induction l with
  | nil => simp [sinsert, SortedCores]
  | cons d ds ih =>
    rcases (List.pairwise_cons.mp h) with ⟨hd, ht⟩
    simp only [sinsert]
    split
    · exact h
    · split
      · next h1 h2 =>
        refine List.pairwise_cons.mpr ⟨?_, h⟩
        intro b hb
        rcases List.mem_cons.mp hb with rfl | hb
        · exact h2
        · exact coreLt_trans h2 (hd b hb)
      · next h1 h2 =>
        have hdc : coreLt d c = true := by
          rcases coreLt_total h1 with h3 | h3
          · exact absurd h3 h2
          · exact h3
        refine List.pairwise_cons.mpr ⟨?_, ih ht⟩
        intro b hb
        rcases mem_sinsert.mp hb with rfl | hb
        · exact hdc
        · exact hd b hb

theorem sortedCores_ofCores (l : List CoreId) : SortedCores (ofCores l) := by
  induction l with
  | nil => simp [ofCores, SortedCores]
  | cons c cs ih => exact sortedCores_sinsert ih

theorem sortedCores_ext {l r : List CoreId}
    (hl : SortedCores l) (hr : SortedCores r)
    (h : ∀ a, a ∈ l ↔ a ∈ r) : l = r := by
  induction l generalizing r with
  | nil =>
    cases r with
    | nil => rfl
    | cons b bs => exact absurd ((h b).mpr (List.mem_cons_self b bs)) (List.not_mem_nil b)
  | cons a as ih =>
    cases r with
    | nil => exact absurd ((h a).mp (List.mem_cons_self a as)) (List.not_mem_nil a)
    | cons b bs =>
      rcases List.pairwise_cons.mp hl with ⟨ha, has⟩
      rcases List.pairwise_cons.mp hr with ⟨hb, hbs⟩
      have hab : a = b := by
        by_contra hne
        have h1 : a ∈ b :: bs := (h a).mp (List.mem_cons_self a as)
        have h2 : b ∈ a :: as := (h b).mpr (List.mem_cons_self b bs)
        rcases List.mem_cons.mp h1 with rfl | h1
        · exact hne rfl
        · rcases List.mem_cons.mp h2 with rfl | h2
          · exact hne rfl
          · have hba := hb a h1
            have hab' := ha b h2
            rw [coreLt_asymm hab'] at hba
            exact Bool.false_ne_true hba
      subst hab
      have htails : ∀ c, c ∈ as ↔ c ∈ bs := by
        intro c
        constructor
        · intro hc
          have h1 : c ∈ a :: bs := (h c).mp (List.mem_cons_of_mem a hc)
          rcases List.mem_cons.mp h1 with rfl | h1
          · exact absurd (ha c hc) (by simp [coreLt_irrefl])
          · exact h1
        · intro hc
          have h1 : c ∈ a :: as := (h c).mpr (List.mem_cons_of_mem a hc)
          rcases List.mem_cons.mp h1 with rfl | h1
          · exact absurd (hb c hc) (by simp [coreLt_irrefl])
          · exact h1
      rw [ih has hbs htails]

/-! ## Claim C4 -/

/-- C4, counterexample: a completion check requesting 4 bytes at address
18 issues a single device read starting at address 16 of length 16 — not
of length 32 as the claim states (16 bytes starting at 16 already cover
bytes 18..21). -/
theorem c4_counterexample :
    (read_block zeroMem (CoreId.mk 0 0) 18 4).1 = Event.read (CoreId.mk 0 0) 16 16
    ∧ (read_block zeroMem (CoreId.mk 0 0) 18 4).1 ≠ Event.read (CoreId.mk 0 0) 16 32 := by
  decide

/-- C4, amended: a completion-check assertion for `length` bytes at
`address` causes a single device read starting at the largest 16-byte
aligned address not exceeding `address`, of the smallest multiple of 16
bytes covering the requested span (for 4 bytes at address 18: a read at
address 16 of length 16), after which bytes `address % 16 ..
address % 16 + length` of the read buffer are sliced out for
comparison. -/
theorem c4_read_block (m : CoreId → Nat → Nat) (core : CoreId) (address length : Nat) :
    (read_block m core address length).1
      = Event.read core (address - address % 16) ((length + address % 16 + 15) / 16 * 16)
    ∧ (address - address % 16) % 16 = 0
    ∧ address - address % 16 ≤ address
    ∧ address + length ≤ (address - address % 16) + (length + address % 16 + 15) / 16 * 16
    ∧ (length + address % 16 + 15) / 16 * 16 < length + address % 16 + 16
    ∧ (read_block m core address length).2
      = ((readBytesMem m core (address - address % 16)
          ((length + address % 16 + 15) / 16 * 16)).drop (address % 16)).take length := by
  have hlen : (if 16 - (length + address % 16) % 16 < 16
      then length + address % 16 + (16 - (length + address % 16) % 16)
      else length + address % 16) = (length + address % 16 + 15) / 16 * 16 := by
    rcases Nat.lt_or_ge (16 - (length + address % 16) % 16) 16 with h | h
    · rw [if_pos h]; omega
    · rw [if_neg (Nat.not_lt.mpr h)]; omega
  simp only [read_block]
  rw [hlen]
  exact ⟨rfl, by omega, by omega, by omega, by omega, rfl⟩

/-! ## Claim C5 -/

/-- C5, counterexample: on Wormhole with raw harvesting bitmask `0b01`,
the core `(1, 11)` belongs to the full column-row cross product but not to
`get_tensix_locations`, so the result is not the full cross product: the
left shift moves bit 0 to physical row 1, which maps to NOC row 11 — a
row that is in the tensix row list. -/
theorem c5_counterexample :
    CoreId.mk 1 11 ∈ ofCores (([1, 2, 3, 4, 6, 7, 8, 9] : List Nat).flatMap
        (fun c => ([1, 2, 3, 4, 5, 7, 8, 9, 10, 11] : List Nat).map (fun r => CoreId.mk c r)))
    ∧ CoreId.mk 1 11 ∉ get_tensix_locations_wh 1
    ∧ get_tensix_locations_wh 1 ≠ ofCores (([1, 2, 3, 4, 6, 7, 8, 9] : List Nat).flatMap
        (fun c => ([1, 2, 3, 4, 5, 7, 8, 9, 10, 11] : List Nat).map (fun r => CoreId.mk c r))) := by
  decide

/-- C5, amended: with harvesting bitmask `0b01` the shift left by one sets
bit 1, i.e. physical row 1, which maps to NOC-0 row 11 on Wormhole (and,
through the reversed row indexing, to NOC-0 row 5 on Grayskull); both are
in the tensix row list, so exactly that row is removed from the cross
product.  The full cross product is obtained for bitmask 0. -/
theorem c5_harvest_shift :
    get_tensix_locations_wh 1 = ofCores (([1, 2, 3, 4, 6, 7, 8, 9] : List Nat).flatMap
        (fun c => ([1, 2, 3, 4, 5, 7, 8, 9, 10] : List Nat).map (fun r => CoreId.mk c r)))
    ∧ get_tensix_locations_wh 0 = ofCores (([1, 2, 3, 4, 6, 7, 8, 9] : List Nat).flatMap
        (fun c => ([1, 2, 3, 4, 5, 7, 8, 9, 10, 11] : List Nat).map (fun r => CoreId.mk c r)))
    ∧ get_tensix_locations_gs 1 = ofCores (((List.range 13).drop 1).flatMap
        (fun c => ([1, 2, 3, 4, 7, 8, 9, 10, 11] : List Nat).map (fun r => CoreId.mk c r))) := by
  decide

/-! ## Claim C7 -/

/-- C7 (confirmed): `load_ttx_file`'s broadcast test holds exactly when
the mapping's keys are exactly `CoreId(0, 0)` and that key's physical
target collection has the same members as the chip's tensix-location set;
and concretely, a single-key mapping targeting the full Wormhole tensix
set is broadcast while the same mapping minus core `(1, 1)` is not. -/
theorem c7_broadcast_detection :
    (∀ (coreMapping : List (CoreId × List CoreId)) (tensix : List CoreId),
      computeBroadcast coreMapping (ofCores tensix) = true ↔
        ((∀ c, c ∈ coreMapping.map Prod.fst ↔ c = CoreId.mk 0 0)
          ∧ (∀ c, c ∈ (alookup coreMapping (CoreId.mk 0 0)).getD [] ↔ c ∈ tensix)))
    ∧ computeBroadcast [(CoreId.mk 0 0, get_tensix_locations_wh 0)]
        (ofCores (get_tensix_locations_wh 0)) = true
    ∧ computeBroadcast
        [(CoreId.mk 0 0, (get_tensix_locations_wh 0).filter (fun c => decide (c ≠ CoreId.mk 1 1)))]
        (ofCores (get_tensix_locations_wh 0)) = false := by
  refine ⟨?_, by decide, by decide⟩
  intro coreMapping tensix
  simp only [computeBroadcast, Bool.and_eq_true, decide_eq_true_eq]
  constructor
  · rintro ⟨h1, h2⟩
    constructor
    · intro c
      rw [← mem_ofCores, h1, List.mem_singleton]
    · intro c
      rw [← mem_ofCores, h2, mem_ofCores]
  · rintro ⟨h1, h2⟩
    constructor
    · refine sortedCores_ext (sortedCores_ofCores _) ?_ ?_
      · simp [SortedCores]
      · intro a
        rw [mem_ofCores, List.mem_singleton]
        exact h1 a
    · refine sortedCores_ext (sortedCores_ofCores _) (sortedCores_ofCores _) ?_
      intro a
      rw [mem_ofCores, mem_ofCores]
      exact h2 a

/-! ## Claim C8 -/

theorem wsByte_64 : wsByte 64 = false := by decide

theorem bstrip_head64_pos {l : List Nat} (h : l.head? = some 64) :
    0 < (bstrip l).length := by
  cases l with
  | nil => simp at h
  | cons b t =>
    simp only [List.head?_cons, Option.some.injEq] at h
    subst h
    simp only [bstrip]
    have h1 : (64 :: t).dropWhile wsByte = 64 :: t := by
      rw [List.dropWhile_cons]
      simp [wsByte_64]
    rw [h1]
    by_contra hlen
    have h2 : ((64 :: t).reverse.dropWhile wsByte).reverse = [] := by
      cases hxx : ((64 :: t).reverse.dropWhile wsByte).reverse with
      | nil => rfl
      | cons x xs => rw [hxx] at hlen; simp at hlen
    rw [List.reverse_eq_nil_iff] at h2
    rw [List.dropWhile_eq_nil_iff] at h2
    have h3 := h2 64 (by simp)
    rw [wsByte_64] at h3
    exact Bool.false_ne_true h3

theorem hex_lines_gen_eq_claim (lines : List (List Nat)) :
    ∀ addrOpt buffer,
      read_hex_lines_gen lines addrOpt buffer = hexDecodeClaimGo lines addrOpt buffer := by
  induction lines with
  | nil => intro addrOpt buffer; rfl
  | cons line rest ih =>
    intro addrOpt buffer
    by_cases h64 : line.head? = some 64
    · have hpos : 0 < (bstrip line).length := bstrip_head64_pos h64
      simp only [read_hex_lines_gen, hexDecodeClaimGo, if_pos hpos, if_pos h64, ih]
    · by_cases hblank : 0 < (bstrip line).length
      · have hblank' : ¬ (bstrip line).length = 0 := by omega
        simp only [read_hex_lines_gen, hexDecodeClaimGo, if_pos hblank, if_neg h64,
          if_neg hblank', ih]
      · have hblank' : (bstrip line).length = 0 := by omega
        simp only [read_hex_lines_gen, hexDecodeClaimGo, if_neg hblank, if_neg h64,
          if_pos hblank', ih]

/-- C8 (confirmed): the source hex decoder equals, on every byte stream,
the decoder transcribed from the claim's wording (`@` lines start a new
block at hex value times 4 and flush the previous non-empty block, other
non-blank lines append one little-endian 32-bit word, end of stream
flushes a final non-empty block), and decoding
`b"@0\n00000001\n00000002\n"` yields exactly one block at address 0 with
bytes `01 00 00 00 02 00 00 00`. -/
theorem c8_hex_decode :
    (∀ bs : List Nat, read_hex_image_chunks_gen bs = hexDecodeClaim bs)
    ∧ read_hex_image_chunks (strBytes "@0\n00000001\n00000002\n")
        = .ok [(0, [1, 0, 0, 0, 2, 0, 0, 0])] := by
  exact ⟨fun bs => hex_lines_gen_eq_claim (splitLines bs) none [], rfl⟩

/-! ## Claim C6 -/

theorem any_ne_zero_eq_not_all_eq_zero {α : Type} (l : List α) (f : α → Nat) :
    ((l.map f).any (fun w => decide (w ≠ 0))) = !(l.all (fun i => decide (f i = 0))) := by
  induction l with
  | nil => rfl
  | cons a t ih =>
    simp only [List.map_cons, List.any_cons, List.all_cons, Bool.not_and, decide_not] at ih ⊢
    rw [ih]

theorem read_chunks_gen_none_iff :
    ∀ fuel (s : List Nat), s.length < fuel →
      (((read_chunks_gen fuel s).2 = none) ↔ chunksWellFormed fuel s = true) := by
  intro fuel
  induction fuel with
  | zero => intro s h; omega
  | succ fuel ih =>
    intro s hs
    simp only [read_chunks_gen, chunksWellFormed]
    by_cases h0 : s.length = 0
    · simp [h0]
    · rw [if_neg h0, if_neg h0]
      by_cases h16 : s.length < 16
      · have h16' : ¬ (16 ≤ s.length) := by omega
        simp [if_pos h16, h16']
      · rw [if_neg h16]
        by_cases hr : leVal ((s.drop 12).take 4) = 0
        · have hr' : ¬ (leVal ((s.drop 12).take 4) ≠ 0) := by simpa using hr
          rw [if_neg hr']
          have htake : ((s.drop 16).take (leVal ((s.drop 8).take 4))).length
              = min (leVal ((s.drop 8).take 4)) (s.length - 16) := by
            simp [List.length_take, List.length_drop]
          by_cases hfit : 16 + leVal ((s.drop 8).take 4) ≤ s.length
          · have hd : ¬ (((s.drop 16).take (leVal ((s.drop 8).take 4))).length
                ≠ leVal ((s.drop 8).take 4)) := by
              rw [htake]; omega
            rw [if_neg hd]
            have hrec := ih ((s.drop 16).drop (leVal ((s.drop 8).take 4)))
              (by simp [List.length_drop]; omega)
            simp only [List.drop_drop] at hrec ⊢
            simp [hrec, hr, hfit, show 16 ≤ s.length by omega]
          · have hd : ((s.drop 16).take (leVal ((s.drop 8).take 4))).length
                ≠ leVal ((s.drop 8).take 4) := by
              rw [htake]; omega
            rw [if_pos hd]
            simp [hfit]
        · rw [if_pos hr]
          simp [hr]

/-- C6 (confirmed): binary decode fails exactly when the 32-byte header is
incomplete or its magic differs from `0x9704266B` or one of its seven
reserved words is nonzero, or some chunk header or chunk payload is
truncated, or a chunk header's reserved field is nonzero; it stops cleanly
exactly at a chunk-region boundary with zero bytes left, yielding the
chunks read so far — in particular a valid 32-byte header followed
immediately by end of stream decodes to an empty chunk sequence without
error. -/
theorem c6_bin_decode :
    (∀ s : List Nat, (read_bin_image_chunks s).isOk = binWellFormed s)
    ∧ read_bin_image_chunks exBinHeader = .ok [] := by
  refine ⟨fun s => ?_, rfl⟩
  simp only [read_bin_image_chunks, read_bin_image_chunks_gen, check_bin_header,
    binWellFormed]
  by_cases h32 : s.length < 32
  · have h32' : ¬ (32 ≤ s.length) := by omega
    rw [if_pos h32]
    simp [h32', Except.isOk, Except.toBool]
  · rw [if_neg h32]
    have h32' : (32 ≤ s.length) := by omega
    have htt : (s.take 32).take 4 = s.take 4 := by
      rw [List.take_take]
      norm_num
    by_cases hm : leVal (s.take 4) = BIN_FILE_V1_MAGIC
    · have hm' : ¬ (leVal ((s.take 32).take 4) ≠ BIN_FILE_V1_MAGIC) := by
        rw [htt]; simpa using hm
      rw [if_neg hm']
      have hany := any_ne_zero_eq_not_all_eq_zero (List.range 7)
        (fun i => leVal (((s.take 32).drop (4 * (i + 1))).take 4))
      by_cases hz : ((List.range 7).all
          (fun i => decide (leVal (((s.take 32).drop (4 * (i + 1))).take 4) = 0))) = true
      · have hany' : (((List.range 7).map
            (fun i => leVal (((s.take 32).drop (4 * (i + 1))).take 4))).any
            (fun w => decide (w ≠ 0))) = false := by
          rw [hany, hz]; rfl
        rw [if_neg (by rw [hany']; exact Bool.false_ne_true)]
        have hiff := read_chunks_gen_none_iff ((s.drop 32).length + 1) (s.drop 32)
          (by omega)
        rcases hE : read_chunks_gen ((s.drop 32).length + 1) (s.drop 32) with ⟨cs, e⟩
        rw [hE] at hiff
        simp only [List.length_drop] at hiff hE ⊢
        rw [hE]
        cases e with
        | none =>
          simp [Except.isOk, Except.toBool, h32', hm, hz, hiff.mp rfl]
        | some err =>
          have hwf : chunksWellFormed (s.length - 32 + 1) (s.drop 32) = false := by
            rw [← Bool.not_eq_true]
            intro hcontra
            exact Option.noConfusion (hiff.mpr hcontra)
          simp [Except.isOk, Except.toBool, hwf]
      · have hany' : (((List.range 7).map
            (fun i => leVal (((s.take 32).drop (4 * (i + 1))).take 4))).any
            (fun w => decide (w ≠ 0))) = true := by
          rw [hany]
          simp only [Bool.not_eq_true'] at hz ⊢
          simp [hz]
        rw [if_pos (by rw [hany'])]
        simp [Except.isOk, Except.toBool, hz]
    · have hm' : leVal ((s.take 32).take 4) ≠ BIN_FILE_V1_MAGIC := by
        rw [htt]; exact hm
      rw [if_pos hm']
      simp [Except.isOk, Except.toBool, hm]

/-! ## Claim C2 -/

theorem read_chunks_gen_err_not_mapping (fuel : Nat) :
    ∀ (s : List Nat) (e : TtxErr),
      (read_chunks_gen fuel s).2 = some e → isMappingErr e = false := by
  induction fuel with
  | zero =>
    intro s e h
    simp only [read_chunks_gen, Option.some.injEq] at h
    subst h
    rfl
  | succ fuel ih =>
    intro s e h
    simp only [read_chunks_gen] at h
    split at h
    · simp at h
    · split at h
      · simp only [Option.some.injEq] at h; subst h; rfl
      · split at h
        · simp only [Option.some.injEq] at h; subst h; rfl
        · split at h
          · simp only [Option.some.injEq] at h; subst h; rfl
          · exact ih _ _ h

theorem check_bin_header_err_not_mapping (s : List Nat) (e : TtxErr) :
    check_bin_header s = .error e → isMappingErr e = false := by
  intro h
  simp only [check_bin_header] at h
  split at h
  · simp only [Except.error.injEq] at h; subst h; rfl
  · split at h
    · simp only [Except.error.injEq] at h; subst h; rfl
    · split at h
      · simp only [Except.error.injEq] at h; subst h; rfl
      · simp at h

theorem read_bin_gen_err_not_mapping (s : List Nat) (e : TtxErr) :
    (read_bin_image_chunks_gen s).2 = some e → isMappingErr e = false := by
  intro h
  simp only [read_bin_image_chunks_gen] at h
  cases hcb : check_bin_header s with
  | error e' =>
    rw [hcb] at h
    simp only [Option.some.injEq] at h
    subst h
    exact check_bin_header_err_not_mapping s _ hcb
  | ok rest =>
    rw [hcb] at h
    exact read_chunks_gen_err_not_mapping _ _ _ h

theorem read_hex_lines_err_not_mapping (lines : List (List Nat)) :
    ∀ (addrOpt : Option Nat) (buffer : List Nat) (e : TtxErr),
      (read_hex_lines_gen lines addrOpt buffer).2 = some e → isMappingErr e = false := by
  induction lines with
  | nil =>
    intro addrOpt buffer e h
    simp only [read_hex_lines_gen] at h
    split at h
    · split at h
      · simp only [Option.some.injEq] at h; subst h; rfl
      · simp at h
    · simp at h
  | cons line rest ih =>
    intro addrOpt buffer e h
    simp only [read_hex_lines_gen] at h
    split at h
    · split at h
      · split at h
        · split at h
          · simp only [Option.some.injEq] at h; subst h; rfl
          · split at h
            · simp only [Option.some.injEq] at h; subst h; rfl
            · exact ih _ _ _ h
        · split at h
          · simp only [Option.some.injEq] at h; subst h; rfl
          · exact ih _ _ _ h
      · split at h
        · simp only [Option.some.injEq] at h; subst h; rfl
        · split at h
          · simp only [Option.some.injEq] at h; subst h; rfl
          · exact ih _ _ _ h
    · exact ih _ _ _ h

theorem read_hex_gen_err_not_mapping (bs : List Nat) (e : TtxErr) :
    (read_hex_image_chunks_gen bs).2 = some e → isMappingErr e = false :=
  read_hex_lines_err_not_mapping (splitLines bs) none [] e

theorem load_gen_err_not_mapping (targets : Option (List CoreId))
    (g : List (Nat × List Nat) × Option TtxErr) (e : TtxErr)
    (hg : ∀ e', g.2 = some e' → isMappingErr e' = false) :
    (load_gen targets g).2 = .error e → isMappingErr e = false := by
  intro h
  simp only [load_gen] at h
  cases hg2 : g.2 with
  | none => rw [hg2] at h; simp at h
  | some e' =>
    rw [hg2] at h
    simp only [Except.error.injEq] at h
    subst h
    exact hg _ hg2

theorem checkChunksList_err_not_mapping (m : CoreId → Nat → Nat) (tensix : List CoreId)
    (targets : Option (List CoreId)) :
    ∀ (chunks : List (Nat × List Nat)) (e : TtxErr),
      (checkChunksList m tensix targets chunks).2 = .error e → isMappingErr e = false := by
  intro chunks
  induction chunks with
  | nil => intro e h; simp [checkChunksList] at h
  | cons chunk rest ih =>
    intro e h
    simp only [checkChunksList] at h
    split at h
    · exact ih _ h
    · simp only [Except.error.injEq] at h; subst h; rfl

theorem check_gen_err_not_mapping (m : CoreId → Nat → Nat) (tensix : List CoreId)
    (targets : Option (List CoreId)) (g : List (Nat × List Nat) × Option TtxErr)
    (e : TtxErr) (hg : ∀ e', g.2 = some e' → isMappingErr e' = false) :
    (check_gen m tensix targets g).2 = .error e → isMappingErr e = false := by
  intro h
  simp only [check_gen] at h
  split at h
  · next heq =>
    simp only [Except.error.injEq] at h
    subst h
    exact checkChunksList_err_not_mapping m tensix targets g.1 _ heq
  · cases hg2 : g.2 with
    | none => rw [hg2] at h; simp at h
    | some e' =>
      rw [hg2] at h
      simp only [Except.error.injEq] at h
      subst h
      exact hg _ hg2

theorem loadOneEntry_err_not_mapping (tensix : List CoreId) (mem0 : CoreId → Nat → Nat)
    (infolist : List (List Char × List Nat)) (noCheck isBin : Bool) (name : List Char)
    (targets : Option (List CoreId)) (tr : List Event) (e : TtxErr) :
    (loadOneEntry tensix mem0 infolist noCheck isBin name targets tr).2 = .error e →
      isMappingErr e = false := by
  intro h
  simp only [loadOneEntry] at h
  split at h
  · simp at h
  · next content heq0 =>
    have hgen : ∀ e', (if isBin = true then read_bin_image_chunks_gen content
        else read_hex_image_chunks_gen content).2 = some e' → isMappingErr e' = false := by
      intro e'
      split
      · exact read_bin_gen_err_not_mapping content e'
      · exact read_hex_gen_err_not_mapping content e'
    split at h
    · next e' heq =>
      simp only [Except.error.injEq] at h
      subst h
      exact load_gen_err_not_mapping targets _ _ hgen heq
    · split at h
      · simp at h
      · exact check_gen_err_not_mapping _ tensix targets _ _ hgen h

theorem load_core_err_not_mapping (tensix : List CoreId) (mem0 : CoreId → Nat → Nat)
    (infolist : List (List Char × List Nat)) (noCheck : Bool) (source : CoreId)
    (targets : Option (List CoreId)) (tr : List Event) (e : TtxErr) :
    (load_core tensix mem0 infolist noCheck source targets tr).2 = .error e →
      isMappingErr e = false := by
  intro h
  simp only [load_core] at h
  split at h
  · next heq =>
    simp only [Except.error.injEq] at h
    subst h
    exact loadOneEntry_err_not_mapping _ _ _ _ _ _ _ _ _ (by rw [heq])
  · split at h
    · next heq =>
      simp only [Except.error.injEq] at h
      subst h
      exact loadOneEntry_err_not_mapping _ _ _ _ _ _ _ _ _ (by rw [heq])
    · split at h
      · next heq =>
        simp only [Except.error.injEq] at h
        subst h
        exact loadOneEntry_err_not_mapping _ _ _ _ _ _ _ _ _ (by rw [heq])
      · exact loadOneEntry_err_not_mapping _ _ _ _ _ _ _ _ _ h

theorem load_cores_loop_err_not_mapping (tensix : List CoreId) (mem0 : CoreId → Nat → Nat)
    (infolist : List (List Char × List Nat)) (noCheck : Bool)
    (coreMapping : List (CoreId × List CoreId)) :
    ∀ (cores : List CoreId) (tr : List Event) (e : TtxErr),
      (load_cores_loop tensix mem0 infolist noCheck coreMapping cores tr).2 = .error e →
        isMappingErr e = false := by
  intro cores
  induction cores with
  | nil => intro tr e h; simp [load_cores_loop] at h
  | cons c rest ih =>
    intro tr e h
    simp only [load_cores_loop] at h
    split at h
    · exact ih _ _ h
    · next heq =>
      simp only [Except.error.injEq] at h
      subst h
      exact load_core_err_not_mapping _ _ _ _ _ _ _ _ (by rw [heq])

/-! ## Claim C1 -/

/-- C1, counterexample: an archive whose only image entry is a non-empty
`3-3/image.hex`, under a non-broadcast mapping, passes validation but
loads nothing: no device operation is issued and the returned loaded set
is empty, even though logical core `3-3` has an image entry. -/
theorem c1_counterexample :
    load_ttx_file [CoreId.mk 1 1] zeroMem [(("3-3/image.hex").data, exHex)]
        [(CoreId.mk 3 3, [CoreId.mk 1 1])] true = ([], .ok [])
    ∧ CoreId.mk 3 3 ∈ (classify_ttx (dedupKeepLast
        [(("3-3/image.hex").data, exHex)])).image_hex := by
  exact ⟨rfl, by decide⟩

/-- C1, amended: `load_ttx_file` runs the load only for the logical source
cores that have a non-empty `image.bin` entry — cores with only a hex
image entry are skipped without error — and on success its return value is
exactly that set of `image.bin` source cores (in broadcast mode, the full
tensix-location set). -/
theorem c1_loaded_cores (tensix : List CoreId) (mem0 : CoreId → Nat → Nat)
    (archive : List (List Char × List Nat)) (coreMapping : List (CoreId × List CoreId))
    (noCheck : Bool) (tr : List Event) (res : List CoreId)
    (h : load_ttx_file tensix mem0 archive coreMapping noCheck = (tr, .ok res)) :
    res = if computeBroadcast coreMapping (ofCores tensix) = true then ofCores tensix
          else (classify_ttx (dedupKeepLast archive)).image_bins := by
  simp only [load_ttx_file] at h
  split at h
  · simp at h
  · split at h
    · simp at h
    · split at h
      · simp at h
      · split at h
        · simp at h
        · split at h
          · next hb =>
            rw [if_pos hb]
            split at h
            · simp only [Prod.mk.injEq, Except.ok.injEq] at h
              exact h.2.symm
            · simp at h
          · next hb =>
            rw [if_neg hb]
            split at h
            · simp only [Prod.mk.injEq, Except.ok.injEq] at h
              exact h.2.symm
            · simp at h

/-- C1 witness: a concrete non-broadcast load whose archive has a one-chunk
`3-3/image.bin`; the theorem instantiates to the returned set `[3-3]`. -/
theorem c1_loaded_cores_witness :
    ([CoreId.mk 3 3] : List CoreId)
      = if computeBroadcast [(CoreId.mk 3 3, [CoreId.mk 1 1])] (ofCores [CoreId.mk 1 1]) = true
        then ofCores [CoreId.mk 1 1]
        else (classify_ttx (dedupKeepLast [(("3-3/image.bin").data, exBin)])).image_bins :=
  c1_loaded_cores [CoreId.mk 1 1] zeroMem [(("3-3/image.bin").data, exBin)]
    [(CoreId.mk 3 3, [CoreId.mk 1 1])] true
    [Event.write (CoreId.mk 1 1) 0 [0xAA, 0xBB]] [CoreId.mk 3 3] rfl

/-- C2, counterexample: a `3-3/image.bin` whose first chunk is intact but
whose second chunk header is truncated after 3 bytes fails with a format
error only after the first chunk has already been written to the device:
the error is raised with one write in the trace, so device state has
changed. -/
theorem c2_counterexample :
    load_ttx_file [CoreId.mk 1 1] zeroMem [(("3-3/image.bin").data, exTruncBin)]
        [(CoreId.mk 3 3, [CoreId.mk 1 1])] true
      = ([Event.write (CoreId.mk 1 1) 0 [0xAA, 0xBB]], .error .truncatedChunkHeader) := rfl

/-- C2, amended: the mapping errors (mapping target outside the topology,
empty archive, ckernels without image, image core missing from the
mapping) are all detected before any device operation: whenever
`load_ttx_file` fails with one of them, its event trace is empty.  Format
errors, in contrast, are raised while streaming, after writes for earlier
chunks of the same load may already have been issued. -/
theorem c2_mapping_errors_no_writes (tensix : List CoreId) (mem0 : CoreId → Nat → Nat)
    (archive : List (List Char × List Nat)) (coreMapping : List (CoreId × List CoreId))
    (noCheck : Bool) (tr : List Event) (e : TtxErr)
    (h : load_ttx_file tensix mem0 archive coreMapping noCheck = (tr, .error e))
    (hmap : isMappingErr e = true) : tr = [] := by
  simp only [load_ttx_file] at h
  split at h
  · simp only [Prod.mk.injEq] at h
    exact h.1.symm
  · split at h
    · simp only [Prod.mk.injEq] at h
      exact h.1.symm
    · split at h
      · simp only [Prod.mk.injEq] at h
        exact h.1.symm
      · split at h
        · simp only [Prod.mk.injEq] at h
          exact h.1.symm
        · split at h
          · split at h
            · simp at h
            · next heq =>
              simp only [Prod.mk.injEq, Except.error.injEq] at h
              obtain ⟨h1, h2⟩ := h
              subst h2
              have hnm := load_core_err_not_mapping tensix mem0 _ noCheck _ none []
                _ (by rw [heq])
              rw [hnm] at hmap
              exact absurd hmap (by simp)
          · split at h
            · simp at h
            · next heq =>
              simp only [Prod.mk.injEq, Except.error.injEq] at h
              obtain ⟨h1, h2⟩ := h
              subst h2
              have hnm := load_cores_loop_err_not_mapping tensix mem0 _ noCheck
                coreMapping _ [] _ (by rw [heq])
              rw [hnm] at hmap
              exact absurd hmap (by simp)

/-- C2 witness: a mapping whose target `9-9` is outside the topology makes
`load_ttx_file` fail with the mapping error and an empty trace. -/
theorem c2_mapping_errors_no_writes_witness : ([] : List Event) = [] :=
  c2_mapping_errors_no_writes [CoreId.mk 1 1] zeroMem
    [(("3-3/image.bin").data, exBin)] [(CoreId.mk 3 3, [CoreId.mk 9 9])] true
    [] (.targetsDontExist [CoreId.mk 9 9]) rfl rfl

/-! ## Claim C3 -/

theorem mem_coresDiff {c : CoreId} {l r : List CoreId} :
    c ∈ coresDiff l r ↔ c ∈ l ∧ c ∉ r := by
  simp [coresDiff, List.mem_filter]

/-- C3, counterexample: for an archive holding both `3-3/image.bin` and a
non-empty `3-3/image.hex`, the hex core is removed from the classified
`image.hex` set, but `load_core` still opens the hex entry by name: the
trace shows the hex contents written to the device first, then the bin
contents — the shadowed hex is not "never written". -/
theorem c3_counterexample :
    load_ttx_file [CoreId.mk 1 1] zeroMem
        [(("3-3/image.bin").data, exBin), (("3-3/image.hex").data, exHex)]
        [(CoreId.mk 3 3, [CoreId.mk 1 1])] true
      = ([Event.write (CoreId.mk 1 1) 0 [0xAA, 0, 0, 0],
          Event.write (CoreId.mk 1 1) 0 [0xAA, 0xBB]], .ok [CoreId.mk 3 3])
    ∧ CoreId.mk 3 3 ∉ (classify_ttx (dedupKeepLast
        [(("3-3/image.bin").data, exBin), (("3-3/image.hex").data, exHex)])).image_hex := by
  exact ⟨rfl, by decide⟩

/-- C3, amended: a hex core shadowed by a bin entry of the same role is
removed from the role's classified core set (the classified hex and bin
sets are disjoint for both roles), but its contents are still written to
the device during loading — the hex is written first and the bin after
it. -/
theorem c3_shadowing (infolist : List (List Char × List Nat)) (c : CoreId) :
    (c ∈ (classify_ttx infolist).image_hex → c ∉ (classify_ttx infolist).image_bins)
    ∧ (c ∈ (classify_ttx infolist).ckernels_hex → c ∉ (classify_ttx infolist).ckernels_bins) := by
  constructor
  · intro hc
    simp only [classify_ttx] at hc ⊢
    exact (mem_coresDiff.mp hc).2
  · intro hc
    simp only [classify_ttx] at hc ⊢
    exact (mem_coresDiff.mp hc).2

/-- C3 witness: for an archive with only `3-3/image.hex`, core `3-3` is in
the classified hex set, and the theorem places it outside the bin set. -/
theorem c3_shadowing_witness :
    CoreId.mk 3 3 ∉ (classify_ttx (dedupKeepLast
        [(("3-3/image.hex").data, exHex)])).image_bins :=
  (c3_shadowing (dedupKeepLast [(("3-3/image.hex").data, exHex)]) (CoreId.mk 3 3)).1
    (by decide)

/-! ## Claim C9 -/

/-- C9, counterexample: an archive whose only entry is `5-5/ckernels.bin`
(no image entry anywhere) does not fail with the ckernels-without-image
mapping error naming `5-5`: the empty-archive check fires first, raising
the empty-TTX error, which names no core. -/
theorem c9_counterexample :
    load_ttx_file [CoreId.mk 1 1] zeroMem [(("5-5/ckernels.bin").data, exBin)]
        [(CoreId.mk 5 5, [CoreId.mk 1 1])] true = ([], .error .emptyTtx) := rfl

/-- C9, amended: when the mapping's targets are valid, the archive has at
least one image entry, and some ckernels-entry core lacks an image entry,
`load_ttx_file` fails before any device operation with the
ckernels-without-image error, whose detail list names exactly the cores
with a `ckernels.bin` but no `image.bin` entry, sorted — a hex-only
ckernels offender triggers the error but is not named; an archive with no
image entries at all fails earlier with the empty-TTX error instead. -/
theorem c9_ckernels_error (tensix : List CoreId) (mem0 : CoreId → Nat → Nat)
    (archive : List (List Char × List Nat)) (coreMapping : List (CoreId × List CoreId))
    (noCheck : Bool)
    (h1 : coresDiff (ofCores (coreMapping.flatMap Prod.snd)) (ofCores tensix) = [])
    (h2 : ¬((classify_ttx (dedupKeepLast archive)).image_bins = []
        ∧ (classify_ttx (dedupKeepLast archive)).image_hex = []))
    (h3 : coresDiff
        (coresUnion (classify_ttx (dedupKeepLast archive)).ckernels_bins
          (classify_ttx (dedupKeepLast archive)).ckernels_hex)
        (coresUnion (classify_ttx (dedupKeepLast archive)).image_bins
          (classify_ttx (dedupKeepLast archive)).image_hex) ≠ []) :
    load_ttx_file tensix mem0 archive coreMapping noCheck
      = ([], .error (.ckernelsNoImage (coresDiff
          (classify_ttx (dedupKeepLast archive)).ckernels_bins
          (classify_ttx (dedupKeepLast archive)).image_bins))) := by
  simp only [load_ttx_file]
  rw [if_neg (by rw [h1]; simp)]
  rw [if_neg h2]
  rw [if_pos (by have := List.length_pos.mpr h3; omega)]

/-- C9 witness: with `1-1/image.bin` present and `5-5/ckernels.bin`
orphaned, the load fails with the ckernels-without-image error naming
`5-5`. -/
theorem c9_ckernels_error_witness :
    load_ttx_file [CoreId.mk 1 1] zeroMem
        [(("1-1/image.bin").data, exBin), (("5-5/ckernels.bin").data, exBin)]
        [(CoreId.mk 1 1, [CoreId.mk 1 1]), (CoreId.mk 5 5, [CoreId.mk 1 1])] true
      = ([], .error (.ckernelsNoImage (coresDiff
          (classify_ttx (dedupKeepLast
            [(("1-1/image.bin").data, exBin), (("5-5/ckernels.bin").data, exBin)])).ckernels_bins
          (classify_ttx (dedupKeepLast
            [(("1-1/image.bin").data, exBin), (("5-5/ckernels.bin").data, exBin)])).image_bins))) :=
  c9_ckernels_error [CoreId.mk 1 1] zeroMem
    [(("1-1/image.bin").data, exBin), (("5-5/ckernels.bin").data, exBin)]
    [(CoreId.mk 1 1, [CoreId.mk 1 1]), (CoreId.mk 5 5, [CoreId.mk 1 1])] true
    (by decide) (by decide) (by decide)

/-! ## Claim C10 -/

theorem readRef_append (s : CheckStore) (ext : List (List AddressData)) (r : Nat)
    (h : r < s.cells.length) :
    CheckStore.readRef ⟨s.cells ++ ext⟩ r = s.readRef r := by
  simp only [CheckStore.readRef]
  exact List.getD_append _ _ _ _ h

theorem ccView_mono (s t : CheckStore) (o : CompletionChecksObj)
    (hwf : ∀ p ∈ o.checks, p.2 < s.cells.length)
    (h : ∃ ext, t.cells = s.cells ++ ext) : ccView t o = ccView s o := by
  obtain ⟨ext, hext⟩ := h
  simp only [ccView]
  refine List.map_congr_left ?_
  intro p hp
  have ht : t = ⟨s.cells ++ ext⟩ := by
    cases t
    simp_all
  rw [ht, readRef_append s ext p.2 (hwf p hp)]

theorem allocEach_cells (v : List AddressData) :
    ∀ (cores : List CoreId) (s : CheckStore),
      ∃ ext, (allocEach s v cores).1.cells = s.cells ++ ext := by
  intro cores
  induction cores with
  | nil => intro s; exact ⟨[], by simp [allocEach]⟩
  | cons c cs ih =>
    intro s
    obtain ⟨ext, hext⟩ := ih ⟨s.cells ++ [v]⟩
    refine ⟨[v] ++ ext, ?_⟩
    simp only [allocEach, CheckStore.alloc]
    rw [hext]
    simp

theorem allocEach_refs_fresh (v : List AddressData) :
    ∀ (cores : List CoreId) (s : CheckStore),
      ∀ p ∈ (allocEach s v cores).2, s.cells.length ≤ p.2 := by
  intro cores
  induction cores with
  | nil => intro s p hp; simp [allocEach] at hp
  | cons c cs ih =>
    intro s p hp
    simp only [allocEach, CheckStore.alloc, List.mem_cons] at hp
    rcases hp with rfl | hp
    · exact Nat.le_refl _
    · have := ih ⟨s.cells ++ [v]⟩ p hp
      simp only [List.length_append, List.length_cons, List.length_nil] at this
      omega

theorem allocCopies_cells (s0 : CheckStore) :
    ∀ (pairs : List (CoreId × Nat)) (s : CheckStore),
      ∃ ext, (allocCopies s0 s pairs).1.cells = s.cells ++ ext := by
  intro pairs
  induction pairs with
  | nil => intro s; exact ⟨[], by simp [allocCopies]⟩
  | cons pr rest ih =>
    intro s
    obtain ⟨ext, hext⟩ := ih ⟨s.cells ++ [s0.readRef pr.2]⟩
    refine ⟨[s0.readRef pr.2] ++ ext, ?_⟩
    cases pr with
    | mk c r =>
      simp only [allocCopies, CheckStore.alloc]
      rw [hext]
      simp

theorem allocCopies_refs_fresh (s0 : CheckStore) :
    ∀ (pairs : List (CoreId × Nat)) (s : CheckStore),
      ∀ p ∈ (allocCopies s0 s pairs).2, s.cells.length ≤ p.2 := by
  intro pairs
  induction pairs with
  | nil => intro s p hp; simp [allocCopies] at hp
  | cons pr rest ih =>
    intro s p hp
    cases pr with
    | mk c r =>
      simp only [allocCopies, CheckStore.alloc, List.mem_cons] at hp
      rcases hp with rfl | hp
      · exact Nat.le_refl _
      · have := ih ⟨s.cells ++ [s0.readRef r]⟩ p hp
        simp only [List.length_append, List.length_cons, List.length_nil] at this
        omega

theorem mem_dedupKeepLast {α β : Type} [DecidableEq α] :
    ∀ (l : List (α × β)) (p : α × β), p ∈ dedupKeepLast l → p ∈ l := by
  intro l
  induction l with
  | nil => intro p hp; simp [dedupKeepLast] at hp
  | cons kv rest ih =>
    intro p hp
    cases kv with
    | mk k v =>
      simp only [dedupKeepLast] at hp
      split at hp
      · exact List.mem_cons_of_mem _ (ih p hp)
      · rcases List.mem_cons.mp hp with rfl | hp
        · exact List.mem_cons_self _ _
        · exact List.mem_cons_of_mem _ (ih p hp)

/-- C10 (confirmed): each of `remap_for_broadcast`, `remap_to_physical`
and `filter_physical` builds a new instance whose per-core lists live in
freshly allocated cells (every reference of the result is outside the
receiver's store), and leaves the receiver's checks mapping unchanged:
viewed through the resulting store, the receiver dereferences to exactly
the same mapping as before. -/
theorem c10_transforms_pure (s : CheckStore) (o : CompletionChecksObj)
    (cores : List CoreId) (coreMapping : List (CoreId × List CoreId))
    (loadedCores : List CoreId)
    (hwf : ∀ p ∈ o.checks, p.2 < s.cells.length) :
    (ccView (remap_for_broadcast s o cores).1 o = ccView s o
      ∧ ∀ p ∈ (remap_for_broadcast s o cores).2.checks, s.cells.length ≤ p.2)
    ∧ (ccView (remap_to_physical s o coreMapping).1 o = ccView s o
      ∧ ∀ p ∈ (remap_to_physical s o coreMapping).2.checks, s.cells.length ≤ p.2)
    ∧ (ccView (filter_physical s o loadedCores).1 o = ccView s o
      ∧ ∀ p ∈ (filter_physical s o loadedCores).2.checks, s.cells.length ≤ p.2) := by
  refine ⟨⟨?_, ?_⟩, ⟨?_, ?_⟩, ⟨?_, ?_⟩⟩
  · exact ccView_mono s _ o hwf (allocEach_cells _ cores s)
  · intro p hp
    exact allocEach_refs_fresh _ cores s p hp
  · exact ccView_mono s _ o hwf (allocCopies_cells s _ s)
  · intro p hp
    exact allocCopies_refs_fresh s _ s p (mem_dedupKeepLast _ p hp)
  · exact ccView_mono s _ o hwf (allocCopies_cells s _ s)
  · intro p hp
    exact allocCopies_refs_fresh s _ s p hp

/-- C10 witness: at a concrete one-cell store and one-core instance, the
broadcast remap leaves the receiver's view unchanged. -/
theorem c10_transforms_pure_witness :
    ccView (remap_for_broadcast exStore exObj [CoreId.mk 1 1]).1 exObj
      = ccView exStore exObj :=
  (c10_transforms_pure exStore exObj [CoreId.mk 1 1] [] [] (by decide)).1.1

end TtBurnin
